import Mathlib

/-!
Verification of the embedded in-memory document store of the
Ration Fraud Detection System repository.

The store (`backend/mock_db.py`) exposes collection-style CRUD plus a
subset of a declarative query language.  The repository snapshot under
study ships the documentation (`FIXES_APPLIED.md`, `USER_CREATION_FIX.md`)
with verbatim code excerpts of `MockCursor.to_list` and the `$or` branch of
`_matches_query`; those excerpts are embedded directly.  The remaining
parts of the store are modelled from the specification, as marked on each
definition.
-/

/-- Document field values: the tagged union of the store's schema-less
value types (string, number, boolean, null, nested document, sequence). -/
inductive Value where
  | str : String → Value
  | num : Int → Value
  | bool : Bool → Value
  | null : Value
  | vdoc : List (String × Value) → Value
  | varr : List Value → Value

/-- A document: an ordered mapping from string field names to values. -/
abbrev DocT := List (String × Value)

mutual
/-- Structural (type-sensitive) equality test on values, mirroring the
source language's `==` on dynamically typed values. -/
def Value.beq : Value → Value → Bool
  | .str a, .str b => a == b
  | .num a, .num b => a == b
  | .bool a, .bool b => a == b
  | .null, .null => true
  | .vdoc a, .vdoc b => Value.beqFields a b
  | .varr a, .varr b => Value.beqArr a b
  | _, _ => false

/-- Equality test on field lists of nested documents. -/
def Value.beqFields : List (String × Value) → List (String × Value) → Bool
  | [], [] => true
  | (k₁, v₁) :: r₁, (k₂, v₂) :: r₂ =>
      k₁ == k₂ && Value.beq v₁ v₂ && Value.beqFields r₁ r₂
  | _, _ => false

/-- Equality test on value sequences. -/
def Value.beqArr : List Value → List Value → Bool
  | [], [] => true
  | v₁ :: r₁, v₂ :: r₂ => Value.beq v₁ v₂ && Value.beqArr r₁ r₂
  | _, _ => false
end

/-- Field lookup in a document (first binding of the key wins). -/
def lookupField (d : DocT) (k : String) : Option Value :=
  match d with
  | [] => none
  | (k', v) :: rest => if k' == k then some v else lookupField rest k

/-- Lexicographic strict order on character lists (by code point). -/
def charsLt : List Char → List Char → Bool
  | [], [] => false
  | [], _ :: _ => true
  | _ :: _, [] => false
  | a :: as, b :: bs =>
      if a.val.toNat < b.val.toNat then true
      else if b.val.toNat < a.val.toNat then false
      else charsLt as bs

/-- Lexicographic strict order on strings. -/
def strLt (a b : String) : Bool := charsLt a.toList b.toList

/-- Lexicographic non-strict order on strings. -/
def strLe (a b : String) : Bool := strLt a b || a == b

/-- Strict ordering comparison between values: defined only for mutually
ordered types (numbers, or lexicographic strings); comparing incompatible
types is a non-match. Modelled from the spec (`$gt`/`$lt` ordering rule). -/
def valueLt : Value → Value → Bool
  | .num a, .num b => a < b
  | .str a, .str b => strLt a b
  | _, _ => false

/-- Non-strict ordering comparison between values; incompatible types are
a non-match. Modelled from the spec (`$gte`/`$lte` ordering rule). -/
def valueLe : Value → Value → Bool
  | .num a, .num b => a ≤ b
  | .str a, .str b => strLe a b
  | _, _ => false

/-- ASCII lower-casing of a character. -/
def lowerChar (c : Char) : Char :=
  if 65 ≤ c.val ∧ c.val ≤ 90 then Char.ofNat (c.val.toNat + 32) else c

/-- Whether `pat` occurs as a contiguous sublist of the character list. -/
def containsSubList (pat : List Char) : List Char → Bool
  | [] => pat.isEmpty
  | c :: rest => pat.isPrefixOf (c :: rest) || containsSubList pat rest

/-- Case-insensitive containment of `pat` inside `s`:
`s` contains a match for the pattern under case-insensitive semantics.
Modelled from the spec: the source's `$regex` evaluation (documented as
"limited to simple patterns", case-insensitive) is modelled as literal
substring containment after lower-casing both sides. -/
def containsCI (s pat : String) : Bool :=
  containsSubList (pat.toList.map lowerChar) (s.toList.map lowerChar)

/-- The value attached to one query key: either a literal (implying
equality) or an operator mapping (operator keys kept as raw strings so
that unrecognized operators are representable). Modelled from the spec's
Query Specification data model. -/
inductive QCond where
  | lit : Value → QCond
  | ops : List (String × Value) → QCond

mutual
/-- A query specification: an ordered mapping whose entries are ordinary
field keys (literal or operator mapping) or the logical-combinator key
`$or` mapping to a sequence of nested query specifications. Modelled from
the spec's Query Specification data model; entry order mirrors the
source's dictionary iteration order. -/
inductive Query where
  | qnil : Query
  | qfield : String → QCond → Query → Query
  | qor : OrList → Query → Query

/-- The sequence of nested query specifications under a `$or` key. -/
inductive OrList where
  | onil : OrList
  | ocons : Query → OrList → OrList
end

/-- The nested specifications of an `OrList`, as a plain list. -/
def OrList.toList : OrList → List Query
  | .onil => []
  | .ocons q r => q :: OrList.toList r

/-- The operator keys the matcher recognizes. Modelled from the spec and
the operator inventory documented in `FIXES_APPLIED.md`. -/
def recognizedOps : List String :=
  ["$eq", "$ne", "$gt", "$gte", "$lt", "$lte", "$in", "$regex"]

/-- Evaluate a single operator against the (optional) field value.
`Except.error` reports the usage error raised on an unrecognized operator
key; every type mismatch resolves to `ok false` (a non-match), never an
error. Modelled from the spec's operator semantics (§4.1). -/
def evalOp (fv : Option Value) (opName : String) (operand : Value) :
    Except String Bool :=
  if opName = "$eq" then
    .ok (match fv with | some v => Value.beq v operand | none => false)
  else if opName = "$ne" then
    .ok (match fv with | some v => !(Value.beq v operand) | none => true)
  else if opName = "$gt" then
    .ok (match fv with | some v => valueLt operand v | none => false)
  else if opName = "$gte" then
    .ok (match fv with | some v => valueLe operand v | none => false)
  else if opName = "$lt" then
    .ok (match fv with | some v => valueLt v operand | none => false)
  else if opName = "$lte" then
    .ok (match fv with | some v => valueLe v operand | none => false)
  else if opName = "$in" then
    .ok (match fv, operand with
         | some v, .varr l => l.any (fun w => Value.beq v w)
         | _, _ => false)
  else if opName = "$regex" then
    .ok (match fv, operand with
         | some (.str s), .str pat => containsCI s pat
         | _, _ => false)
  else
    .error ("unrecognized operator " ++ opName)

/-- Conjunction of all operators of one operator mapping on one field:
each operator is evaluated independently and all must pass. -/
def evalOps (fv : Option Value) : List (String × Value) → Except String Bool
  | [] => .ok true
  | (opName, operand) :: rest =>
      match evalOp fv opName operand with
      | .error e => .error e
      | .ok false => .ok false
      | .ok true => evalOps fv rest

/-- Evaluate one ordinary query key on a document: a literal requires
exact equality with the field (absent field fails); an operator mapping
is evaluated with `evalOps`. Modelled from the spec (§4.1). -/
def evalCond (doc : DocT) (k : String) : QCond → Except String Bool
  | .lit v =>
      .ok (match lookupField doc k with
           | some fv => Value.beq fv v
           | none => false)
  | .ops l => evalOps (lookupField doc k) l

mutual
/-- Method `_matches_query` of `MockCollection`: whether a document matches a
query specification. All keys are conjunctively required and evaluated in
order; the `$or` branch follows the excerpt in `FIXES_APPLIED.md`
(`if not any(self._matches_query(doc, cond) for cond in value): return
False`); the remaining key handling is modelled from the spec (§4.1). -/
def matchesQuery (doc : DocT) : Query → Except String Bool
  | .qnil => .ok true
  | .qfield k c rest =>
      match evalCond doc k c with
      | .error e => .error e
      | .ok false => .ok false
      | .ok true => matchesQuery doc rest
  | .qor subs rest =>
      match matchesOr doc subs with
      | .error e => .error e
      | .ok false => .ok false
      | .ok true => matchesQuery doc rest

/-- Short-circuit `any`-style evaluation of the nested specifications of a `$or` key:
succeeds as soon as one nested specification matches, fails when the
sequence is exhausted (so an empty sequence matches nothing). -/
def matchesOr (doc : DocT) : OrList → Except String Bool
  | .onil => .ok false
  | .ocons q r =>
      match matchesQuery doc q with
      | .error e => .error e
      | .ok true => .ok true
      | .ok false => matchesOr doc r
end

/-- A query condition is structurally well formed when, in case it is an
operator mapping, every operator key is recognized. -/
def condWF : QCond → Bool
  | .lit _ => true
  | .ops l => l.all (fun p => recognizedOps.contains p.1)

mutual
/-- A query is structurally well formed when every operator mapping in it
uses only recognized operator keys. -/
def wellFormedQ : Query → Bool
  | .qnil => true
  | .qfield _ c r => condWF c && wellFormedQ r
  | .qor subs r => wellFormedOr subs && wellFormedQ r

/-- All nested specifications under a `$or` key are well formed. -/
def wellFormedOr : OrList → Bool
  | .onil => true
  | .ocons q r => wellFormedQ q && wellFormedOr r
end

/-- Rank of a value's type, used to order values of non-mutually-ordered
types deterministically during sorting. -/
def typeRank : Value → Nat
  | .null => 0
  | .bool _ => 1
  | .num _ => 2
  | .str _ => 3
  | .vdoc _ => 4
  | .varr _ => 5

/-- Total comparison used by cursor sorting: numbers numerically, strings
lexicographically (the same ordering rule as `$gt`/`$lt`), every other
pair deterministically by type rank. Modelled from the spec (§4.2). -/
def sortValueLe : Value → Value → Bool
  | .num a, .num b => a ≤ b
  | .str a, .str b => strLe a b
  | a, b => typeRank a ≤ typeRank b

/-- Comparison of optional field values during sorting: documents missing
the sort field sort as the lowest value. Modelled from the spec (§4.2). -/
def optValueLe : Option Value → Option Value → Bool
  | none, _ => true
  | some _, none => false
  | some a, some b => sortValueLe a b

/-- Document comparison by the value of the sort field. -/
def docLe (field : String) (d₁ d₂ : DocT) : Bool :=
  optValueLe (lookupField d₁ field) (lookupField d₂ field)

/-- Insert a document into an already-sorted list, before the first
element it compares `le` to (so earlier-inserted equal elements stay in
front: the sort is stable). -/
def sortedInsert (le : DocT → DocT → Bool) (d : DocT) :
    List DocT → List DocT
  | [] => [d]
  | x :: xs => if le d x then d :: x :: xs else x :: sortedInsert le d xs

/-- Stable insertion sort of a document list under `le`. -/
def sortDocs (le : DocT → DocT → Bool) : List DocT → List DocT
  | [] => []
  | d :: rest => sortedInsert le d (sortDocs le rest)

/-- State of `MockCursor`: wraps the result sequence computed at `find` time
(embedded from the class excerpt in `FIXES_APPLIED.md`). -/
structure MockCursor where
  data : List DocT

/-- Method `MockCursor.to_list`: embedded from the excerpt in
`USER_CREATION_FIX.md` / `FIXES_APPLIED.md` — returns all held documents
when `max_length` is `none`, else the first `max_length` of them. -/
def MockCursor.to_list (cur : MockCursor) (max_length : Option Nat) :
    List DocT :=
  match max_length with
  | none => cur.data
  | some n => cur.data.take n

/-- Method `MockCursor.sort`: reorders the held sequence by the given field,
ascending for direction `1`, descending for direction `-1`, and returns
the (chainable) cursor. The excerpt in `FIXES_APPLIED.md` elides the
sorting logic; it is modelled from the spec (§4.2): stable, missing
fields lowest, descending realized by flipping the comparison. -/
def MockCursor.sort (cur : MockCursor) (key : String) (direction : Int) :
    MockCursor :=
  if direction = -1 then
    ⟨sortDocs (fun a b => docLe key b a) cur.data⟩
  else
    ⟨sortDocs (docLe key) cur.data⟩

/-- A projection: field names with an include (`true`) / exclude
(`false`) flag. -/
abbrev Projection := List (String × Bool)

/-- Apply a projection to one returned document copy: an all-exclusion
projection removes the named fields, otherwise only the fields named for
inclusion are kept. Modelled from the spec (§4.3, field
inclusion/exclusion on returned copies). -/
def applyProj (proj : Projection) (d : DocT) : DocT :=
  if proj.all (fun p => p.2 == false) then
    d.filter (fun kv => !(proj.any (fun p => p.1 == kv.1)))
  else
    d.filter (fun kv => proj.any (fun p => p.1 == kv.1 && p.2))

/-- Apply an optional projection. -/
def applyProjOpt : Option Projection → DocT → DocT
  | none, d => d
  | some p, d => applyProj p d

/-- State of `MockCollection`: a named collection's backing store — an ordered
sequence of documents, insertion order preserved. Modelled from the spec
(§3, §4.3). -/
structure MockCollection where
  docs : List DocT

/-- The documents of `l` (in order) matching `q`; the matcher's usage
error on a malformed query propagates. -/
def filterDocs (q : Query) : List DocT → Except String (List DocT)
  | [] => .ok []
  | d :: rest =>
      match matchesQuery d q with
      | .error e => .error e
      | .ok true =>
          match filterDocs q rest with
          | .error e => .error e
          | .ok l => .ok (d :: l)
      | .ok false => filterDocs q rest

/-- The first document of `l` (in storage order) matching `q`. -/
def firstMatch (q : Query) : List DocT → Except String (Option DocT)
  | [] => .ok none
  | d :: rest =>
      match matchesQuery d q with
      | .error e => .error e
      | .ok true => .ok (some d)
      | .ok false => firstMatch q rest

/-- Method `insert`: assigns the identity field from the external
identity-generation primitive (modelled as the `genId` argument) if the
caller supplied none, appends to the collection, and returns the stored
document together with the new collection state. Never regenerates or
mutates a caller-supplied `id`. Modelled from the spec (§4.3, §6). -/
def MockCollection.insert (c : MockCollection) (genId : String)
    (d : DocT) : DocT × MockCollection :=
  match lookupField d "id" with
  | some _ => (d, ⟨c.docs ++ [d]⟩)
  | none =>
      let stored := d ++ [("id", Value.str genId)]
      (stored, ⟨c.docs ++ [stored]⟩)

/-- Method `find`: wraps all matching documents (in storage order), each copy
optionally projected, in a cursor. Modelled from the spec (§4.3) and the
`find`-returns-`MockCursor` excerpt in `FIXES_APPLIED.md`. -/
def MockCollection.find (c : MockCollection) (q : Query)
    (proj : Option Projection) : Except String MockCursor :=
  match filterDocs q c.docs with
  | .error e => .error e
  | .ok l => .ok ⟨l.map (applyProjOpt proj)⟩

/-- Method `find_one`: the first matching document in storage order (projected),
or the `none` sentinel. Modelled from the spec (§4.3). -/
def MockCollection.find_one (c : MockCollection) (q : Query)
    (proj : Option Projection) : Except String (Option DocT) :=
  match firstMatch q c.docs with
  | .error e => .error e
  | .ok none => .ok none
  | .ok (some d) => .ok (some (applyProjOpt proj d))

/-- Shallow field-level merge of an update into a document: each key of
`upd` overwrites or adds the corresponding top-level field; no deep merge
of nested documents. Modelled from the spec (§4.3, update semantics). -/
def mergeDoc (d upd : DocT) : DocT :=
  d.map (fun kv =>
    match lookupField upd kv.1 with
    | some v => (kv.1, v)
    | none => kv)
  ++ upd.filter (fun kv => (lookupField d kv.1).isNone)

/-- Replace the first document matching `q` by its merge with `upd`,
reporting how many documents were affected. -/
def updateFirst (q : Query) (upd : DocT) :
    List DocT → Except String (Nat × List DocT)
  | [] => .ok (0, [])
  | d :: rest =>
      match matchesQuery d q with
      | .error e => .error e
      | .ok true => .ok (1, mergeDoc d upd :: rest)
      | .ok false =>
          match updateFirst q upd rest with
          | .error e => .error e
          | .ok (n, l) => .ok (n, d :: l)

/-- Method `update_one`: locates the first matching document, applies the
shallow field-level merge, and returns the affected count (0 or 1) with
the new collection state. Modelled from the spec (§4.3). -/
def MockCollection.update_one (c : MockCollection) (q : Query)
    (upd : DocT) : Except String (Nat × MockCollection) :=
  match updateFirst q upd c.docs with
  | .error e => .error e
  | .ok (n, l) => .ok (n, ⟨l⟩)

/-- Method `count_documents`: the number of documents satisfying the matcher.
Modelled from the spec (§4.3). -/
def MockCollection.count_documents (c : MockCollection) (q : Query) :
    Except String Nat :=
  match filterDocs q c.docs with
  | .error e => .error e
  | .ok l => .ok l.length

section Lemmas

/-- An operator whose key is recognized never reports a usage error. -/
theorem evalOp_ok_of_recognized (fv : Option Value) (opName : String)
    (operand : Value) (h : recognizedOps.contains opName = true) :
    ∃ b, evalOp fv opName operand = .ok b := by
  have h' : opName ∈ recognizedOps := by simpa using h
  simp only [recognizedOps, List.mem_cons, List.not_mem_nil, or_false] at h'
  rcases h' with h' | h' | h' | h' | h' | h' | h' | h' <;> subst h' <;>
    exact ⟨_, rfl⟩

/-- A well-formed operator mapping never reports a usage error. -/
theorem evalOps_ok_of_wf (fv : Option Value) :
    ∀ l : List (String × Value),
      l.all (fun p => recognizedOps.contains p.1) = true →
      ∃ b, evalOps fv l = .ok b
  | [], _ => ⟨true, rfl⟩
  | (opName, operand) :: rest, h => by
      have h' : recognizedOps.contains opName = true ∧
          rest.all (fun p => recognizedOps.contains p.1) = true := by
        simpa using h
      obtain ⟨b, hb⟩ := evalOp_ok_of_recognized fv opName operand h'.1
      cases b with
      | false => exact ⟨false, by simp [evalOps, hb]⟩
      | true =>
          obtain ⟨b₂, hb₂⟩ := evalOps_ok_of_wf fv rest h'.2
          exact ⟨b₂, by simp [evalOps, hb, hb₂]⟩

/-- A well-formed query condition never reports a usage error. -/
theorem evalCond_ok_of_wf (d : DocT) (k : String) (c : QCond)
    (h : condWF c = true) : ∃ b, evalCond d k c = .ok b := by
  cases c with
  | lit v => exact ⟨_, rfl⟩
  | ops l => exact evalOps_ok_of_wf (lookupField d k) l (by simpa [condWF] using h)

mutual
/-- On a structurally well-formed query the matcher always returns a
match decision, for every document — in particular it never raises for a
type mismatch. -/
theorem matchesQuery_ok_of_wf (d : DocT) :
    ∀ q : Query, wellFormedQ q = true → ∃ b, matchesQuery d q = .ok b
  | .qnil, _ => ⟨true, rfl⟩
  | .qfield k c rest, h => by
      have h' : condWF c = true ∧ wellFormedQ rest = true := by
        simpa [wellFormedQ] using h
      obtain ⟨b, hb⟩ := evalCond_ok_of_wf d k c h'.1
      cases b with
      | false => exact ⟨false, by simp [matchesQuery, hb]⟩
      | true =>
          obtain ⟨b₂, hb₂⟩ := matchesQuery_ok_of_wf d rest h'.2
          exact ⟨b₂, by simp [matchesQuery, hb, hb₂]⟩
  | .qor subs rest, h => by
      have h' : wellFormedOr subs = true ∧ wellFormedQ rest = true := by
        simpa [wellFormedQ] using h
      obtain ⟨b, hb⟩ := matchesOr_ok_of_wf d subs h'.1
      cases b with
      | false => exact ⟨false, by simp [matchesQuery, hb]⟩
      | true =>
          obtain ⟨b₂, hb₂⟩ := matchesQuery_ok_of_wf d rest h'.2
          exact ⟨b₂, by simp [matchesQuery, hb, hb₂]⟩

/-- On well-formed nested `$or` specifications the disjunction evaluation
always returns a decision. -/
theorem matchesOr_ok_of_wf (d : DocT) :
    ∀ l : OrList, wellFormedOr l = true → ∃ b, matchesOr d l = .ok b
  | .onil, _ => ⟨false, rfl⟩
  | .ocons q r, h => by
      have h' : wellFormedQ q = true ∧ wellFormedOr r = true := by
        simpa [wellFormedOr] using h
      obtain ⟨b, hb⟩ := matchesQuery_ok_of_wf d q h'.1
      cases b with
      | true => exact ⟨true, by simp [matchesOr, hb]⟩
      | false =>
          obtain ⟨b₂, hb₂⟩ := matchesOr_ok_of_wf d r h'.2
          exact ⟨b₂, by simp [matchesOr, hb, hb₂]⟩
end

end Lemmas

section MoreLemmas

/-- Unfolding of `evalOp` at the `$regex` operator key. -/
theorem evalOp_regex_eq (fv : Option Value) (operand : Value) :
    evalOp fv "$regex" operand =
      .ok (match fv, operand with
           | some (.str s), .str pat => containsCI s pat
           | _, _ => false) := rfl

/-- Unfolding of `evalOp` at the `$eq` operator key. -/
theorem evalOp_eqop_eq (fv : Option Value) (operand : Value) :
    evalOp fv "$eq" operand =
      .ok (match fv with
           | some v => Value.beq v operand
           | none => false) := rfl

/-- A usage error from the matcher implies the query was structurally
malformed. -/
theorem matchesQuery_error_imp_malformed (d : DocT) (q : Query) (e : String)
    (h : matchesQuery d q = .error e) : wellFormedQ q = false := by
  cases hq : wellFormedQ q with
  | false => rfl
  | true =>
      obtain ⟨b, hb⟩ := matchesQuery_ok_of_wf d q hq
      rw [h] at hb
      simp at hb

/-- The result of `filterDocs` is a sublist of the input (each stored
document contributes at most once). -/
theorem filterDocs_sublist (q : Query) :
    ∀ l r, filterDocs q l = .ok r → List.Sublist r l
  | [], r, h => by
      simp only [filterDocs, Except.ok.injEq] at h
      subst h
      simp
  | d :: rest, r, h => by
      rcases hm : matchesQuery d q with e | b
      · simp [filterDocs, hm] at h
      · cases b with
        | true =>
            rcases hf : filterDocs q rest with e | l
            · simp [filterDocs, hm, hf] at h
            · simp only [filterDocs, hm, hf, Except.ok.injEq] at h
              subst h
              exact (filterDocs_sublist q rest l hf).cons₂ d
        | false =>
            simp only [filterDocs, hm] at h
            exact (filterDocs_sublist q rest r h).cons d

/-- Membership in the result of `filterDocs`: exactly the input documents
the matcher accepts. -/
theorem filterDocs_mem (q : Query) :
    ∀ l r, filterDocs q l = .ok r →
      ∀ d, d ∈ r ↔ d ∈ l ∧ matchesQuery d q = .ok true
  | [], r, h, d => by
      simp only [filterDocs, Except.ok.injEq] at h
      subst h
      simp
  | x :: rest, r, h, d => by
      rcases hm : matchesQuery x q with e | b
      · simp [filterDocs, hm] at h
      · cases b with
        | true =>
            rcases hf : filterDocs q rest with e | l
            · simp [filterDocs, hm, hf] at h
            · simp only [filterDocs, hm, hf, Except.ok.injEq] at h
              subst h
              have ih := filterDocs_mem q rest l hf d
              constructor
              · intro h'
                rcases List.mem_cons.mp h' with h' | h'
                · subst h'
                  exact ⟨by simp, hm⟩
                · exact ⟨List.mem_cons_of_mem x (ih.mp h').1, (ih.mp h').2⟩
              · rintro ⟨h₁, h₂⟩
                rcases List.mem_cons.mp h₁ with h₁ | h₁
                · subst h₁
                  exact List.mem_cons_self d l
                · exact List.mem_cons_of_mem _ (ih.mpr ⟨h₁, h₂⟩)
        | false =>
            simp only [filterDocs, hm] at h
            have ih := filterDocs_mem q rest r h d
            constructor
            · intro h'
              exact ⟨List.mem_cons_of_mem x (ih.mp h').1, (ih.mp h').2⟩
            · rintro ⟨h₁, h₂⟩
              rcases List.mem_cons.mp h₁ with h₁ | h₁
              · subst h₁
                rw [h₂] at hm
                simp at hm
              · exact ih.mpr ⟨h₁, h₂⟩

/-- When the matcher rejects every document, `filterDocs` returns the
empty result. -/
theorem filterDocs_of_all_false (q : Query) :
    ∀ l, (∀ d ∈ l, matchesQuery d q = .ok false) → filterDocs q l = .ok []
  | [], _ => rfl
  | d :: rest, h => by
      have hd := h d (by simp)
      have hr := filterDocs_of_all_false q rest fun x hx =>
        h x (List.mem_cons_of_mem d hx)
      simp [filterDocs, hd, hr]

/-- Field lookup distributes over append. -/
theorem lookupField_append (l₁ l₂ : DocT) (k : String) :
    lookupField (l₁ ++ l₂) k = (lookupField l₁ k).or (lookupField l₂ k) := by
  induction l₁ with
  | nil => simp [lookupField]
  | cons kv rest ih =>
      by_cases h : kv.1 == k
      · simp [lookupField, h]
      · simp only [List.cons_append, lookupField, h, Bool.false_eq_true,
          if_false]
        exact ih

end MoreLemmas

/-- Claim C6: `to_list` (the cursor's materialization) returns the first
`limit` documents of the cursor's current order, or all documents when the
limit is unbounded (`none`), and repeated materialization calls on an
unchanged cursor return the same list for every limit value. -/
theorem C6_to_list_materializes (cur : MockCursor) (n : Nat) :
    cur.to_list none = cur.data ∧
    cur.to_list (some n) = cur.data.take n ∧
    cur.to_list (some n) = (cur.to_list none).take n ∧
    (∀ lim : Option Nat, cur.to_list lim = cur.to_list lim) :=
  ⟨rfl, rfl, rfl, fun _ => rfl⟩

/-- Claim C10: a query whose `$or` key maps to an empty sequence of nested
specifications matches no document: `find` returns an empty result on any
collection and `count_documents` returns 0, in contrast to the empty
query, which matches every document. -/
theorem C10_or_empty_matches_nothing :
    (∀ d : DocT, matchesQuery d (.qor .onil .qnil) = .ok false) ∧
    (∀ c : MockCollection,
      c.find (.qor .onil .qnil) none = .ok ⟨[]⟩ ∧
      c.count_documents (.qor .onil .qnil) = .ok 0) ∧
    (∀ d : DocT, matchesQuery d .qnil = .ok true) := by
  have hm : ∀ d : DocT, matchesQuery d (.qor .onil .qnil) = .ok false := by
    intro d
    simp [matchesQuery, matchesOr]
  refine ⟨hm, fun c => ?_, fun d => by simp [matchesQuery]⟩
  have hf : filterDocs (.qor .onil .qnil) c.docs = .ok [] :=
    filterDocs_of_all_false _ _ fun d _ => hm d
  exact ⟨by simp [MockCollection.find, hf],
         by simp [MockCollection.count_documents, hf]⟩

/-- Claim C7: a `$regex` condition on a field matches exactly when the
field's value is a string containing a match for the pattern under
case-insensitive semantics (modelled as case-insensitive containment);
an absent or non-string field value is a non-match, never an error; in
particular a document with field value "Alice" matches pattern "alice". -/
theorem C7_regex_case_insensitive (d : DocT) (f pat : String) :
    matchesQuery d (.qfield f (.ops [("$regex", .str pat)]) .qnil) =
      .ok (match lookupField d f with
           | some (.str s) => containsCI s pat
           | some _ => false
           | none => false) ∧
    matchesQuery [("name", .str "Alice")]
      (.qfield "name" (.ops [("$regex", .str "alice")]) .qnil) = .ok true ∧
    matchesQuery [("name", .num 7)]
      (.qfield "name" (.ops [("$regex", .str "alice")]) .qnil) = .ok false ∧
    matchesQuery ([] : DocT)
      (.qfield "name" (.ops [("$regex", .str "alice")]) .qnil) = .ok false := by
  refine ⟨?_, rfl, rfl, rfl⟩
  rcases h : lookupField d f with _ | v
  · simp [matchesQuery, evalCond, evalOps, evalOp_regex_eq, h]
  · cases v with
    | str s =>
        cases hb : containsCI s pat <;>
          simp [matchesQuery, evalCond, evalOps, evalOp_regex_eq, h, hb]
    | num n => simp [matchesQuery, evalCond, evalOps, evalOp_regex_eq, h]
    | bool b => simp [matchesQuery, evalCond, evalOps, evalOp_regex_eq, h]
    | null => simp [matchesQuery, evalCond, evalOps, evalOp_regex_eq, h]
    | vdoc l => simp [matchesQuery, evalCond, evalOps, evalOp_regex_eq, h]
    | varr l => simp [matchesQuery, evalCond, evalOps, evalOp_regex_eq, h]

/-- Claim C3: the query matcher never raises for a type mismatch — on a
structurally well-formed query it returns a match decision for every
document, and incompatible comparisons resolve to a non-match; it reports
a usage error only on a structurally malformed query (an operator mapping
with an unrecognized operator key), and that error propagates uncaught
through `find`, `find_one` and `count_documents`. -/
theorem C3_matcher_failure_semantics :
    (∀ (q : Query) (d : DocT), wellFormedQ q = true →
      ∃ b, matchesQuery d q = .ok b) ∧
    (∀ (q : Query) (d : DocT) (e : String),
      matchesQuery d q = .error e → wellFormedQ q = false) ∧
    (∀ (c : MockCollection) (q : Query) (proj : Option Projection)
        (d : DocT) (rest : List DocT) (e : String),
      c.docs = d :: rest → matchesQuery d q = .error e →
      c.find q proj = .error e ∧ c.find_one q proj = .error e ∧
      c.count_documents q = .error e) ∧
    matchesQuery [] (.qfield "a" (.ops [("$bogus", .num 1)]) .qnil) =
      .error "unrecognized operator $bogus" := by
  refine ⟨fun q d h => matchesQuery_ok_of_wf d q h,
         fun q d e h => matchesQuery_error_imp_malformed d q e h,
         ?_, rfl⟩
  intro c q proj d rest e hdocs hm
  refine ⟨?_, ?_, ?_⟩ <;>
    simp [MockCollection.find, MockCollection.find_one,
      MockCollection.count_documents, hdocs, filterDocs, firstMatch, hm]

/-- Witness for C3: the malformed-query error from the matcher reaches
the caller of `find` unchanged on a concrete one-document collection. -/
theorem C3_matcher_failure_semantics_witness :
    (MockCollection.mk [([] : DocT)]).find
      (.qfield "a" (.ops [("$bogus", .num 1)]) .qnil) none =
      .error "unrecognized operator $bogus" :=
  (C3_matcher_failure_semantics.2.2.1 (MockCollection.mk [[]])
    (.qfield "a" (.ops [("$bogus", .num 1)]) .qnil) none [] []
    "unrecognized operator $bogus" rfl rfl).1

/-- Decomposition of the matcher at an ordinary field key: the overall
match requires the key's condition and the rest of the query. -/
theorem matchesQuery_qfield_true_iff (d : DocT) (k : String) (c : QCond)
    (rest : Query) :
    matchesQuery d (.qfield k c rest) = .ok true ↔
      (evalCond d k c = .ok true ∧ matchesQuery d rest = .ok true) := by
  rcases he : evalCond d k c with e | b
  · simp [matchesQuery, he]
  · cases b <;> simp [matchesQuery, he]

/-- Decomposition of the matcher at a `$or` key: the overall match
requires the disjunction and the rest of the query. -/
theorem matchesQuery_qor_true_iff (d : DocT) (subs : OrList)
    (rest : Query) :
    matchesQuery d (.qor subs rest) = .ok true ↔
      (matchesOr d subs = .ok true ∧ matchesQuery d rest = .ok true) := by
  rcases he : matchesOr d subs with e | b
  · simp [matchesQuery, he]
  · cases b <;> simp [matchesQuery, he]

/-- On well-formed nested specifications, a `$or` disjunction matches
exactly when at least one nested specification matches. -/
theorem matchesOr_true_iff (d : DocT) :
    ∀ subs : OrList, wellFormedOr subs = true →
      (matchesOr d subs = .ok true ↔
        ∃ s ∈ OrList.toList subs, matchesQuery d s = .ok true)
  | .onil, _ => by simp [matchesOr, OrList.toList]
  | .ocons q r, h => by
      have h' : wellFormedQ q = true ∧ wellFormedOr r = true := by
        simpa [wellFormedOr] using h
      obtain ⟨b, hb⟩ := matchesQuery_ok_of_wf d q h'.1
      have ih := matchesOr_true_iff d r h'.2
      cases b with
      | true =>
          constructor
          · intro _
            exact ⟨q, by simp [OrList.toList], hb⟩
          · intro _
            simp [matchesOr, hb]
      | false =>
          rw [show matchesOr d (.ocons q r) = matchesOr d r from by
            simp [matchesOr, hb], ih]
          constructor
          · rintro ⟨s, hs, hps⟩
            exact ⟨s, by simp [OrList.toList, hs], hps⟩
          · rintro ⟨s, hs, hps⟩
            rcases List.mem_cons.mp (by simpa [OrList.toList] using hs)
              with h₁ | h₁
            · subst h₁
              rw [hps] at hb
              simp at hb
            · exact ⟨s, h₁, hps⟩

/-- A projection argument of `none` leaves the returned copies unchanged. -/
theorem map_applyProjOpt_none (l : List DocT) :
    l.map (applyProjOpt none) = l := by
  induction l with
  | nil => rfl
  | cons d rest ih => simp [applyProjOpt, ih]

/-- Claim C2: a query with a top-level `$or` key (possibly alongside
ordinary field keys) matches exactly when every ordinary key matches and
at least one nested specification matches, evaluated recursively with the
same matcher; consequently `find` on `{$or: [A, B]}` returns exactly the
documents matching either clause, each stored document contributing at
most once (no duplicates from a document matching both clauses). -/
theorem C2_or_composition :
    (∀ (d : DocT) (k : String) (c : QCond) (rest : Query),
      matchesQuery d (.qfield k c rest) = .ok true ↔
        (evalCond d k c = .ok true ∧ matchesQuery d rest = .ok true)) ∧
    (∀ (d : DocT) (subs : OrList) (rest : Query),
      wellFormedOr subs = true →
      (matchesQuery d (.qor subs rest) = .ok true ↔
        ((∃ s ∈ OrList.toList subs, matchesQuery d s = .ok true) ∧
          matchesQuery d rest = .ok true))) ∧
    (∀ (c : MockCollection) (A B : Query) (res : MockCursor),
      wellFormedQ A = true → wellFormedQ B = true →
      c.find (.qor (.ocons A (.ocons B .onil)) .qnil) none = .ok res →
      List.Sublist res.data c.docs ∧
      (∀ d, d ∈ res.data ↔ d ∈ c.docs ∧
        (matchesQuery d A = .ok true ∨ matchesQuery d B = .ok true))) := by
  refine ⟨matchesQuery_qfield_true_iff, ?_, ?_⟩
  · intro d subs rest hwf
    rw [matchesQuery_qor_true_iff, matchesOr_true_iff d subs hwf]
  · intro c A B res hA hB hfind
    rcases hf : filterDocs (.qor (.ocons A (.ocons B .onil)) .qnil) c.docs
      with e | l
    · simp [MockCollection.find, hf] at hfind
    · simp only [MockCollection.find, hf, Except.ok.injEq] at hfind
      subst hfind
      simp only [map_applyProjOpt_none]
      have hwf : wellFormedOr (.ocons A (.ocons B .onil)) = true := by
        simp [wellFormedOr, hA, hB]
      have hiff : ∀ d : DocT,
          matchesQuery d (.qor (.ocons A (.ocons B .onil)) .qnil) = .ok true ↔
            (matchesQuery d A = .ok true ∨ matchesQuery d B = .ok true) := by
        intro d
        rw [matchesQuery_qor_true_iff, matchesOr_true_iff d _ hwf]
        simp [OrList.toList, matchesQuery]
      refine ⟨filterDocs_sublist _ _ _ hf, fun d => ?_⟩
      rw [filterDocs_mem _ _ _ hf d, hiff d]

/-- Witness for C2: on a concrete three-document collection,
`find({$or: [{a: 1}, {b: 2}]})` returns exactly the two matching
documents, once each. -/
theorem C2_or_composition_witness :
    List.Sublist [[("a", Value.num 1)], [("b", Value.num 2)]]
      [[("a", Value.num 1)], [("b", Value.num 2)], [("c", Value.num 3)]] ∧
    (∀ d, d ∈ [[("a", Value.num 1)], [("b", Value.num 2)]] ↔
      d ∈ [[("a", Value.num 1)], [("b", Value.num 2)], [("c", Value.num 3)]] ∧
      (matchesQuery d (.qfield "a" (.lit (.num 1)) .qnil) = .ok true ∨
        matchesQuery d (.qfield "b" (.lit (.num 2)) .qnil) = .ok true)) :=
  C2_or_composition.2.2
    (MockCollection.mk
      [[("a", Value.num 1)], [("b", Value.num 2)], [("c", Value.num 3)]])
    (.qfield "a" (.lit (.num 1)) .qnil)
    (.qfield "b" (.lit (.num 2)) .qnil)
    (MockCursor.mk [[("a", Value.num 1)], [("b", Value.num 2)]])
    rfl rfl rfl

/-- Equality test against a string value holds exactly on the equal
string value. -/
theorem beq_str_iff (v : Value) (g : String) :
    Value.beq v (.str g) = true ↔ v = .str g := by
  cases v <;> simp [Value.beq]

/-- The matcher on a single literal field condition reduces to the
equality test on the looked-up field. -/
theorem matchesQuery_lit_eq (d : DocT) (k : String) (w : Value) :
    matchesQuery d (.qfield k (.lit w) .qnil) =
      .ok (match lookupField d k with
           | some v => Value.beq v w
           | none => false) := by
  rcases h : lookupField d k with _ | v
  · simp [matchesQuery, evalCond, h]
  · cases hb : Value.beq v w <;> simp [matchesQuery, evalCond, h, hb]

/-- The function `firstMatch` skips a prefix of non-matching documents. -/
theorem firstMatch_append_of_all_false (q : Query) :
    ∀ l₁ l₂, (∀ x ∈ l₁, matchesQuery x q = .ok false) →
      firstMatch q (l₁ ++ l₂) = firstMatch q l₂
  | [], _, _ => rfl
  | x :: rest, l₂, h => by
      have hx := h x (by simp)
      simp only [List.cons_append, firstMatch, hx]
      exact firstMatch_append_of_all_false q rest l₂
        fun y hy => h y (List.mem_cons_of_mem x hy)

/-- Claim C1: inserting a document without an identity field through the
canonical insert path assigns the (externally generated, globally unique,
non-empty) `id`, appends the stored document, and returns it with the
`id` populated; a subsequent `find_one({id: that value})` returns the
document equal to the input plus the assigned identity; and the store
never regenerates or mutates a caller-supplied identity field. -/
theorem C1_insert_assigns_id (c : MockCollection) (genId : String)
    (d : DocT)
    (hno : lookupField d "id" = none)
    (hne : genId ≠ "")
    (hfresh : ∀ d' ∈ c.docs, ∀ v, lookupField d' "id" = some v →
      v ≠ .str genId) :
    (c.insert genId d).1 = d ++ [("id", Value.str genId)] ∧
    lookupField (c.insert genId d).1 "id" = some (.str genId) ∧
    Value.str genId ≠ Value.str "" ∧
    (c.insert genId d).2.docs = c.docs ++ [(c.insert genId d).1] ∧
    (c.insert genId d).2.find_one
      (.qfield "id" (.lit (.str genId)) .qnil) none =
      .ok (some ((c.insert genId d).1)) ∧
    (∀ (d₀ : DocT) (v₀ : Value), lookupField d₀ "id" = some v₀ →
      (c.insert genId d₀).1 = d₀ ∧
      (c.insert genId d₀).2.docs = c.docs ++ [d₀]) := by
  have hstored : (c.insert genId d).1 = d ++ [("id", Value.str genId)] := by
    simp [MockCollection.insert, hno]
  have hdocs : (c.insert genId d).2.docs = c.docs ++ [(c.insert genId d).1] := by
    simp [MockCollection.insert, hno]
  have hlook : lookupField (c.insert genId d).1 "id" = some (.str genId) := by
    rw [hstored, lookupField_append, hno]
    simp [lookupField]
  refine ⟨hstored, hlook, by simp [hne], hdocs, ?_, ?_⟩
  · have hnomatch : ∀ x ∈ c.docs,
        matchesQuery x (.qfield "id" (.lit (.str genId)) .qnil) = .ok false := by
      intro x hx
      rw [matchesQuery_lit_eq]
      rcases hv : lookupField x "id" with _ | v
      · rfl
      · have hvne : v ≠ .str genId := hfresh x hx v hv
        have : Value.beq v (.str genId) = false := by
          cases hb : Value.beq v (.str genId)
          · rfl
          · exact absurd ((beq_str_iff v genId).mp hb) hvne
        simp [this]
    have hmatch : matchesQuery (c.insert genId d).1
        (.qfield "id" (.lit (.str genId)) .qnil) = .ok true := by
      rw [matchesQuery_lit_eq, hlook]
      simp [Value.beq]
    simp only [MockCollection.find_one, hdocs,
      firstMatch_append_of_all_false _ c.docs _ hnomatch, firstMatch, hmatch]
    simp [applyProjOpt]
  · intro d₀ v₀ h₀
    constructor <;> simp [MockCollection.insert, h₀]

/-- Witness for C1: inserting Alice's document (no `id`) into a
collection holding one identity-less document under generated token "u1";
`find_one({id: "u1"})` returns Alice's document plus the identity. -/
theorem C1_insert_assigns_id_witness :
    ((MockCollection.mk [[("name", Value.str "Bob")]]).insert "u1"
        [("name", Value.str "Alice")]).2.find_one
      (.qfield "id" (.lit (.str "u1")) .qnil) none =
      .ok (some [("name", Value.str "Alice"), ("id", Value.str "u1")]) := by
  have hfresh : ∀ d' ∈ [[("name", Value.str "Bob")]], ∀ v : Value,
      lookupField d' "id" = some v → v ≠ .str "u1" := by
    intro d' hd' v hv
    have hd'' : d' = [("name", Value.str "Bob")] := by simpa using hd'
    subst hd''
    have hnone : lookupField [("name", Value.str "Bob")] "id" = none := rfl
    rw [hnone] at hv
    cases hv
  have h := (C1_insert_assigns_id ⟨[[("name", Value.str "Bob")]]⟩ "u1"
    [("name", Value.str "Alice")] rfl (by decide) hfresh).2.2.2.2.1
  exact h

/-- Looking up a key after the overwrite pass of the merge: present keys
keep their position and take the update's value when the update names
them. -/
theorem lookupField_map_overwrite (upd : DocT) (k : String) :
    ∀ d : DocT,
      lookupField (d.map (fun kv =>
        match lookupField upd kv.1 with
        | some v => (kv.1, v)
        | none => kv)) k =
      (lookupField d k).map (fun v => (lookupField upd k).getD v)
  | [] => rfl
  | (k', v') :: rest => by
      by_cases h : (k' == k) = true
      · have hk : k' = k := by simpa using h
        subst hk
        rcases hu : lookupField upd k' with _ | w <;>
          simp [lookupField, hu]
      · rcases hu : lookupField upd k' with _ | w <;>
          simp [lookupField, h, hu, lookupField_map_overwrite upd k rest]

/-- Looking up a key absent from `d` in the new-fields pass of the merge
behaves like looking it up in the update itself. -/
theorem lookupField_filter_isNone (d : DocT) (k : String)
    (hk : lookupField d k = none) :
    ∀ upd : DocT,
      lookupField (upd.filter (fun kv => (lookupField d kv.1).isNone)) k =
        lookupField upd k
  | [] => rfl
  | (k₁, v₁) :: rest => by
      by_cases h : (k₁ == k) = true
      · have hk₁ : k₁ = k := by simpa using h
        subst hk₁
        simp [List.filter_cons, lookupField, hk]
      · cases hp : (lookupField d k₁).isNone <;>
          simp [List.filter_cons, hp, lookupField, h,
            lookupField_filter_isNone d k hk rest]

/-- The merged document's field values: keys of the update win, all other
fields keep their prior values (the merge is shallow: a nested-document
value from the update replaces the old value wholesale). -/
theorem mergeDoc_lookup (d upd : DocT) (k : String) :
    lookupField (mergeDoc d upd) k =
      (lookupField upd k).or (lookupField d k) := by
  rw [mergeDoc, lookupField_append, lookupField_map_overwrite]
  rcases hd : lookupField d k with _ | v
  · rw [lookupField_filter_isNone d k hd upd]
    cases lookupField upd k <;> simp
  · cases hu : lookupField upd k <;> simp [hu]

/-- The function `updateFirst` is the identity (count 0) when no document matches. -/
theorem updateFirst_all_false (q : Query) (upd : DocT) :
    ∀ l, (∀ d ∈ l, matchesQuery d q = .ok false) →
      updateFirst q upd l = .ok (0, l)
  | [], _ => rfl
  | d :: rest, h => by
      simp [updateFirst, h d (by simp),
        updateFirst_all_false q upd rest
          fun x hx => h x (List.mem_cons_of_mem d hx)]

/-- The function `updateFirst` merges exactly the first matching document (count 1). -/
theorem updateFirst_first_match (q : Query) (upd : DocT) :
    ∀ pre d post, (∀ x ∈ pre, matchesQuery x q = .ok false) →
      matchesQuery d q = .ok true →
      updateFirst q upd (pre ++ d :: post) =
        .ok (1, pre ++ mergeDoc d upd :: post)
  | [], d, post, _, hd => by simp [updateFirst, hd]
  | x :: rest, d, post, h, hd => by
      simp [updateFirst, h x (by simp),
        updateFirst_first_match q upd rest d post
          (fun y hy => h y (List.mem_cons_of_mem x hy)) hd]

/-- Claim C5: `update_one` locates the first matching document in storage
order and applies a shallow field-level merge — each update key
overwrites or adds the corresponding top-level field, nested documents
are replaced wholesale, all other fields keep their prior values —
returning count 1, and returns count 0 leaving the collection unchanged
when no document matches; in the concrete scenario, flagging Bob keeps
his name. -/
theorem C5_update_one_shallow_merge :
    (∀ (d upd : DocT) (k : String),
      lookupField (mergeDoc d upd) k =
        (lookupField upd k).or (lookupField d k)) ∧
    (∀ (c : MockCollection) (q : Query) (upd : DocT),
      (∀ d ∈ c.docs, matchesQuery d q = .ok false) →
      c.update_one q upd = .ok (0, c)) ∧
    (∀ (c : MockCollection) (q : Query) (upd : DocT)
        (pre : List DocT) (d : DocT) (post : List DocT),
      c.docs = pre ++ d :: post →
      (∀ x ∈ pre, matchesQuery x q = .ok false) →
      matchesQuery d q = .ok true →
      c.update_one q upd = .ok (1, ⟨pre ++ mergeDoc d upd :: post⟩)) ∧
    mergeDoc [("a", Value.vdoc [("x", Value.num 1), ("y", Value.num 2)])]
        [("a", Value.vdoc [("x", Value.num 9)])] =
      [("a", Value.vdoc [("x", Value.num 9)])] ∧
    (MockCollection.mk
      [[("aadhaar_id", Value.str "A1"), ("name", Value.str "Alice")],
       [("aadhaar_id", Value.str "A2"), ("name", Value.str "Bob")]]).update_one
      (.qfield "aadhaar_id" (.lit (.str "A2")) .qnil)
      [("status", Value.str "flagged")] =
      .ok (1, ⟨[[("aadhaar_id", Value.str "A1"), ("name", Value.str "Alice")],
        [("aadhaar_id", Value.str "A2"), ("name", Value.str "Bob"),
         ("status", Value.str "flagged")]]⟩) ∧
    (MockCollection.mk
      [[("aadhaar_id", Value.str "A1"), ("name", Value.str "Alice")],
       [("aadhaar_id", Value.str "A2"), ("name", Value.str "Bob"),
        ("status", Value.str "flagged")]]).find_one
      (.qfield "aadhaar_id" (.lit (.str "A2")) .qnil) none =
      .ok (some [("aadhaar_id", Value.str "A2"), ("name", Value.str "Bob"),
        ("status", Value.str "flagged")]) := by
  refine ⟨mergeDoc_lookup, ?_, ?_, rfl, rfl, rfl⟩
  · intro c q upd h
    simp [MockCollection.update_one, updateFirst_all_false q upd c.docs h]
  · intro c q upd pre d post hdocs hpre hd
    simp [MockCollection.update_one, hdocs,
      updateFirst_first_match q upd pre d post hpre hd]

/-- Witness for C5: the scenario update applied through the first-match
conjunct of the claim theorem at concrete inputs. -/
theorem C5_update_one_shallow_merge_witness :
    (MockCollection.mk
      [[("aadhaar_id", Value.str "A1"), ("name", Value.str "Alice")],
       [("aadhaar_id", Value.str "A2"), ("name", Value.str "Bob")]]).update_one
      (.qfield "aadhaar_id" (.lit (.str "A2")) .qnil)
      [("status", Value.str "flagged")] =
      .ok (1, ⟨[[("aadhaar_id", Value.str "A1"), ("name", Value.str "Alice")],
        [("aadhaar_id", Value.str "A2"), ("name", Value.str "Bob"),
         ("status", Value.str "flagged")]]⟩) := by
  have h := C5_update_one_shallow_merge.2.2.1
    (MockCollection.mk
      [[("aadhaar_id", Value.str "A1"), ("name", Value.str "Alice")],
       [("aadhaar_id", Value.str "A2"), ("name", Value.str "Bob")]])
    (.qfield "aadhaar_id" (.lit (.str "A2")) .qnil)
    [("status", Value.str "flagged")]
    [[("aadhaar_id", Value.str "A1"), ("name", Value.str "Alice")]]
    [("aadhaar_id", Value.str "A2"), ("name", Value.str "Bob")]
    [] rfl
    (by
      intro x hx
      have hx' : x = [("aadhaar_id", Value.str "A1"),
          ("name", Value.str "Alice")] := by simpa using hx
      subst hx'
      rfl)
    rfl
  exact h

/-- Inserting into a sorted list is a permutation of consing. -/
theorem sortedInsert_perm (le : DocT → DocT → Bool) (d : DocT) :
    ∀ l, List.Perm (sortedInsert le d l) (d :: l)
  | [] => List.Perm.refl _
  | x :: xs => by
      by_cases h : le d x = true
      · simp [sortedInsert, h]
      · rw [sortedInsert, if_neg h]
        exact (List.Perm.cons x (sortedInsert_perm le d xs)).trans
          (List.Perm.swap d x xs)

/-- The insertion sort permutes its input. -/
theorem sortDocs_perm (le : DocT → DocT → Bool) :
    ∀ l, List.Perm (sortDocs le l) l
  | [] => List.Perm.refl _
  | d :: rest =>
      (sortedInsert_perm le d (sortDocs le rest)).trans
        (List.Perm.cons d (sortDocs_perm le rest))

/-- A sorted cursor holds a permutation of the snapshot. -/
theorem sort_data_perm (cur : MockCursor) (f : String) (dir : Int) :
    List.Perm (cur.sort f dir).data cur.data := by
  rw [MockCursor.sort]
  by_cases h : dir = -1 <;> simp [h, sortDocs_perm]

/-- The first match, when found, is a stored document accepted by the
matcher. -/
theorem firstMatch_mem (q : Query) :
    ∀ l d, firstMatch q l = .ok (some d) →
      d ∈ l ∧ matchesQuery d q = .ok true
  | [], d, h => by simp [firstMatch] at h
  | x :: rest, d, h => by
      rcases hm : matchesQuery x q with e | b
      · simp [firstMatch, hm] at h
      · cases b with
        | true =>
            simp only [firstMatch, hm, Except.ok.injEq,
              Option.some.injEq] at h
            subst h
            exact ⟨by simp, hm⟩
        | false =>
            simp only [firstMatch, hm] at h
            obtain ⟨h₁, h₂⟩ := firstMatch_mem q rest d h
            exact ⟨List.mem_cons_of_mem x h₁, h₂⟩

/-- Claim C4: a cursor returned by `find` is a snapshot — a document
inserted into the collection after the `find` call never appears in the
cursor's materialized results, whether or not the cursor is sorted, and
sort and materialization operate solely on the snapshot (sorting permutes
it, materialization takes a prefix of it), never re-querying the
collection. -/
theorem C4_cursor_snapshot_isolation (c : MockCollection) (q : Query)
    (cur : MockCursor) (genId : String) (nd stored : DocT)
    (c₂ : MockCollection)
    (hfind : c.find q none = .ok cur)
    (hins : c.insert genId nd = (stored, c₂))
    (hnew : stored ∉ c.docs) :
    stored ∈ c₂.docs ∧
    stored ∉ cur.data ∧
    (∀ lim, stored ∉ cur.to_list lim) ∧
    (∀ f dir lim, stored ∉ (cur.sort f dir).to_list lim) ∧
    (∀ f dir, List.Perm (cur.sort f dir).data cur.data) ∧
    (∀ lim, ∃ rest, cur.data = cur.to_list lim ++ rest) := by
  have hmem₂ : stored ∈ c₂.docs := by
    have h₂ : c₂ = (c.insert genId nd).2 := by rw [hins]
    have h₁ : stored = (c.insert genId nd).1 := by rw [hins]
    rw [h₂, h₁]
    rcases hl : lookupField nd "id" with _ | v <;>
      simp [MockCollection.insert, hl]
  have hsub : List.Sublist cur.data c.docs := by
    rcases hf : filterDocs q c.docs with e | l
    · simp [MockCollection.find, hf] at hfind
    · simp only [MockCollection.find, hf, Except.ok.injEq] at hfind
      subst hfind
      simpa [map_applyProjOpt_none] using filterDocs_sublist q c.docs l hf
  have hmem : stored ∉ cur.data := fun hx => hnew (hsub.subset hx)
  have htake : ∀ lim, stored ∉ cur.to_list lim := by
    intro lim hx
    apply hmem
    cases lim with
    | none => exact hx
    | some n => exact List.take_subset n cur.data hx
  refine ⟨hmem₂, hmem, htake, ?_, fun f dir => sort_data_perm cur f dir, ?_⟩
  · intro f dir lim hx
    have hx' : stored ∈ (cur.sort f dir).data := by
      cases lim with
      | none => exact hx
      | some n => exact List.take_subset n _ hx
    exact hmem ((sort_data_perm cur f dir).subset hx')
  · intro lim
    cases lim with
    | none => exact ⟨[], by simp [MockCursor.to_list]⟩
    | some n => exact ⟨cur.data.drop n, by simp [MockCursor.to_list]⟩

/-- Witness for C4: on a concrete collection, the document stored by an
insert performed after `find` does not appear in the earlier cursor's
materialization. -/
theorem C4_cursor_snapshot_isolation_witness :
    [("b", Value.num 2), ("id", Value.str "g1")] ∉
      (MockCursor.mk [[("a", Value.num 1)]]).to_list none :=
  (C4_cursor_snapshot_isolation
    (MockCollection.mk [[("a", Value.num 1)]]) .qnil
    (MockCursor.mk [[("a", Value.num 1)]]) "g1"
    [("b", Value.num 2)]
    [("b", Value.num 2), ("id", Value.str "g1")]
    (MockCollection.mk [[("a", Value.num 1)],
      [("b", Value.num 2), ("id", Value.str "g1")]])
    rfl rfl (by simp)).2.2.1 none

/-- Claim C8: every read (`find_one`, `find`, cursor materialization)
returns copies — values equal to (projections of) stored documents, with
the projection applied only to the returned copy: the unprojected
document remains stored, so modifying a returned value can never alter
the collection's stored state (reads are pure functions of the
collection). -/
theorem C8_reads_return_copies :
    (∀ (c : MockCollection) (q : Query) (proj : Option Projection)
        (r : DocT),
      c.find_one q proj = .ok (some r) →
      ∃ d, d ∈ c.docs ∧ matchesQuery d q = .ok true ∧
        r = applyProjOpt proj d) ∧
    (∀ (c : MockCollection) (q : Query) (proj : Option Projection)
        (cur : MockCursor) (r : DocT),
      c.find q proj = .ok cur → r ∈ cur.data →
      ∃ d, d ∈ c.docs ∧ matchesQuery d q = .ok true ∧
        r = applyProjOpt proj d) ∧
    (∀ (c : MockCollection) (q : Query) (p : Projection),
      c.find q (some p) =
        (c.find q none).map (fun cur => ⟨cur.data.map (applyProj p)⟩)) := by
  refine ⟨?_, ?_, ?_⟩
  · intro c q proj r h
    rcases hf : firstMatch q c.docs with e | od
    · simp [MockCollection.find_one, hf] at h
    · cases od with
      | none => simp [MockCollection.find_one, hf] at h
      | some d =>
          simp only [MockCollection.find_one, hf, Except.ok.injEq,
            Option.some.injEq] at h
          obtain ⟨h₁, h₂⟩ := firstMatch_mem q c.docs d hf
          exact ⟨d, h₁, h₂, h.symm⟩
  · intro c q proj cur r hfind hr
    rcases hf : filterDocs q c.docs with e | l
    · simp [MockCollection.find, hf] at hfind
    · simp only [MockCollection.find, hf, Except.ok.injEq] at hfind
      subst hfind
      obtain ⟨d, hd, hdr⟩ := List.mem_map.mp hr
      have := (filterDocs_mem q c.docs l hf d).mp hd
      exact ⟨d, this.1, this.2, hdr.symm⟩
  · intro c q p
    rcases hf : filterDocs q c.docs with e | l <;>
      simp [MockCollection.find, hf, map_applyProjOpt_none, applyProjOpt,
        Except.map]

/-- Witness for C8: a projected `find_one` on a concrete collection
returns the projection of the stored document, which itself remains
stored with all its fields. -/
theorem C8_reads_return_copies_witness :
    ∃ d, d ∈ [[("id", Value.str "i1"), ("name", Value.str "Alice")]] ∧
      matchesQuery d .qnil = .ok true ∧
      [("name", Value.str "Alice")] =
        applyProjOpt (some [("id", false)]) d :=
  C8_reads_return_copies.1
    (MockCollection.mk [[("id", Value.str "i1"),
      ("name", Value.str "Alice")]])
    .qnil (some [("id", false)]) [("name", Value.str "Alice")] rfl

/-- The lexicographic character order is asymmetric. -/
theorem charsLt_asymm : ∀ x y, charsLt x y = true → charsLt y x = false
  | [], [] => by simp [charsLt]
  | [], _ :: _ => by simp [charsLt]
  | _ :: _, [] => by simp [charsLt]
  | a :: as, b :: bs => fun h => by
      simp only [charsLt] at h ⊢
      by_cases h₁ : a.val.toNat < b.val.toNat
      · rw [if_neg (by omega), if_pos h₁]
      · by_cases h₂ : b.val.toNat < a.val.toNat
        · rw [if_neg h₁, if_pos h₂] at h
          cases h
        · rw [if_neg h₁, if_neg h₂] at h
          rw [if_neg h₂, if_neg h₁]
          exact charsLt_asymm as bs h

/-- The lexicographic character order is irreflexive. -/
theorem charsLt_irrefl : ∀ x, charsLt x x = false
  | [] => rfl
  | a :: as => by
      simp only [charsLt]
      rw [if_neg (by omega), if_neg (by omega)]
      exact charsLt_irrefl as

/-- The sort comparison agrees with the `$gt`/`$lt` ordering rule: a
strictly smaller value sorts (weakly) before, and never after, the
larger one. -/
theorem valueLt_sortValueLe (v w : Value) (h : valueLt v w = true) :
    sortValueLe v w = true ∧ sortValueLe w v = false := by
  cases v <;> cases w <;> simp_all [valueLt, sortValueLe]
  case num.num a b =>
    omega
  case str.str a b =>
    have hlt : charsLt a.toList b.toList = true := by
      simpa [strLt] using h
    have hne : a ≠ b := by
      intro hab
      subst hab
      rw [charsLt_irrefl] at hlt
      cases hlt
    constructor
    · simp only [strLe, strLt, Bool.or_eq_true, beq_iff_eq]
      exact Or.inl hlt
    · simp only [strLe, strLt, Bool.or_eq_false_iff, beq_eq_false_iff_ne,
        ne_eq]
      exact ⟨charsLt_asymm _ _ hlt, fun hba => hne hba.symm⟩

/-- Ascending `sortedInsert` keeps the documents missing the sort field
grouped as a prefix: past the leading missing-field block, every document
has the field. -/
theorem sortedInsert_missing_grouped (f : String) (d : DocT) :
    ∀ l, (∀ y ∈ l.dropWhile (fun x => (lookupField x f).isNone),
        (lookupField y f).isNone = false) →
      ∀ y ∈ (sortedInsert (docLe f) d l).dropWhile
          (fun x => (lookupField x f).isNone),
        (lookupField y f).isNone = false
  | [], _ => by
      intro y hy
      cases hd : (lookupField d f).isNone with
      | true => simp [sortedInsert, List.dropWhile_cons, hd] at hy
      | false =>
          rw [sortedInsert, List.dropWhile_cons, if_neg (by simp [hd])] at hy
          have hyd : y = d := by simpa using hy
          subst hyd
          exact hd
  | x :: xs, hP => by
      intro y hy
      by_cases hle : docLe f d x = true
      · rw [sortedInsert, if_pos hle] at hy
        cases hd : (lookupField d f).isNone with
        | true =>
            rw [List.dropWhile_cons, if_pos (by simp [hd])] at hy
            exact hP y hy
        | false =>
            have hx : (lookupField x f).isNone = false := by
              rcases ha : lookupField d f with _ | a
              · rw [ha] at hd
                cases hd
              · rcases hxx : lookupField x f with _ | w
                · rw [docLe, ha, hxx] at hle
                  cases hle
                · simp [hxx]
            have hPx : ∀ z ∈ x :: xs, (lookupField z f).isNone = false := by
              intro z hz
              apply hP
              rw [List.dropWhile_cons, if_neg (by simp [hx])]
              exact hz
            rw [List.dropWhile_cons, if_neg (by simp [hd])] at hy
            rcases List.mem_cons.mp hy with hy' | hy'
            · subst hy'
              exact hd
            · exact hPx y hy'
      · have hd : (lookupField d f).isNone = false := by
          rcases hdm : lookupField d f with _ | a
          · exact absurd (by simp [docLe, optValueLe, hdm]) hle
          · simp
        rw [sortedInsert, if_neg hle] at hy
        cases hx : (lookupField x f).isNone with
        | true =>
            rw [List.dropWhile_cons, if_pos (by simp [hx])] at hy
            have hPxs : ∀ z ∈ xs.dropWhile (fun w => (lookupField w f).isNone),
                (lookupField z f).isNone = false := by
              intro z hz
              apply hP
              rw [List.dropWhile_cons, if_pos (by simp [hx])]
              exact hz
            exact sortedInsert_missing_grouped f d xs hPxs y hy
        | false =>
            have hPx : ∀ z ∈ x :: xs, (lookupField z f).isNone = false := by
              intro z hz
              apply hP
              rw [List.dropWhile_cons, if_neg (by simp [hx])]
              exact hz
            rw [List.dropWhile_cons, if_neg (by simp [hx])] at hy
            rcases List.mem_cons.mp hy with hy' | hy'
            · subst hy'
              exact hx
            · rcases List.mem_cons.mp
                ((sortedInsert_perm (docLe f) d xs).mem_iff.mp hy')
                with hy'' | hy''
              · subst hy''
                exact hd
              · exact hPx y (List.mem_cons_of_mem x hy'')

/-- Ascending insertion sort groups the documents missing the sort field
as a prefix of the result. -/
theorem sortDocs_missing_grouped (f : String) :
    ∀ l, ∀ y ∈ (sortDocs (docLe f) l).dropWhile
        (fun x => (lookupField x f).isNone),
      (lookupField y f).isNone = false
  | [] => by
      intro y hy
      simp [sortDocs, List.dropWhile] at hy
  | d :: rest =>
      sortedInsert_missing_grouped f d (sortDocs (docLe f) rest)
        (sortDocs_missing_grouped f rest)

/-- Sorting three documents with pairwise-distinct numeric sort keys
ascending and then descending yields exactly the reverse of the ascending
order. -/
theorem sort3_desc_reverse (f : String) (d₁ d₂ d₃ : DocT) (v₁ v₂ v₃ : Int)
    (h₁ : lookupField d₁ f = some (.num v₁))
    (h₂ : lookupField d₂ f = some (.num v₂))
    (h₃ : lookupField d₃ f = some (.num v₃))
    (h₁₂ : v₁ ≠ v₂) (h₁₃ : v₁ ≠ v₃) (h₂₃ : v₂ ≠ v₃) :
    (((MockCursor.mk [d₁, d₂, d₃]).sort f 1).sort f (-1)).data =
      (((MockCursor.mk [d₁, d₂, d₃]).sort f 1).data).reverse := by
  have b₁₂ : docLe f d₁ d₂ = decide (v₁ ≤ v₂) := by
    simp [docLe, h₁, h₂, optValueLe, sortValueLe]
  have b₂₁ : docLe f d₂ d₁ = decide (v₂ ≤ v₁) := by
    simp [docLe, h₁, h₂, optValueLe, sortValueLe]
  have b₁₃ : docLe f d₁ d₃ = decide (v₁ ≤ v₃) := by
    simp [docLe, h₁, h₃, optValueLe, sortValueLe]
  have b₃₁ : docLe f d₃ d₁ = decide (v₃ ≤ v₁) := by
    simp [docLe, h₁, h₃, optValueLe, sortValueLe]
  have b₂₃ : docLe f d₂ d₃ = decide (v₂ ≤ v₃) := by
    simp [docLe, h₂, h₃, optValueLe, sortValueLe]
  have b₃₂ : docLe f d₃ d₂ = decide (v₃ ≤ v₂) := by
    simp [docLe, h₂, h₃, optValueLe, sortValueLe]
  simp only [MockCursor.sort, sortDocs, sortedInsert, b₁₂, b₂₁, b₁₃, b₃₁,
    b₂₃, b₃₂, reduceIte]
  split_ifs <;> simp_all [sortDocs, sortedInsert] <;>
    repeat' (first | omega | rfl | (split_ifs <;> simp_all [sortDocs, sortedInsert]))

/-- Claim C9: `sort(field, direction)` reorders the held sequence (the
result is a permutation of the snapshot) using the same ordering rule as
`$gt`/`$lt` (a strictly smaller value sorts weakly before and never
after), documents missing the sort field sort as the lowest value and are
grouped together as a prefix of the ascending order, and sorting three
documents with pairwise-distinct numeric keys ascending then descending
yields exactly the reverse of the ascending result. -/
theorem C9_sort_semantics :
    (∀ (cur : MockCursor) (f : String) (dir : Int),
      List.Perm (cur.sort f dir).data cur.data) ∧
    (∀ v w : Value, valueLt v w = true →
      sortValueLe v w = true ∧ sortValueLe w v = false) ∧
    (∀ (cur : MockCursor) (f : String),
      ∀ y ∈ ((cur.sort f 1).data.dropWhile
          (fun x => (lookupField x f).isNone)),
        (lookupField y f).isNone = false) ∧
    (∀ (f : String) (d₁ d₂ d₃ : DocT) (v₁ v₂ v₃ : Int),
      lookupField d₁ f = some (.num v₁) →
      lookupField d₂ f = some (.num v₂) →
      lookupField d₃ f = some (.num v₃) →
      v₁ ≠ v₂ → v₁ ≠ v₃ → v₂ ≠ v₃ →
      (((MockCursor.mk [d₁, d₂, d₃]).sort f 1).sort f (-1)).data =
        (((MockCursor.mk [d₁, d₂, d₃]).sort f 1).data).reverse) := by
  refine ⟨sort_data_perm, valueLt_sortValueLe, ?_, sort3_desc_reverse⟩
  intro cur f y hy
  have hdata : (cur.sort f 1).data = sortDocs (docLe f) cur.data := by
    simp [MockCursor.sort]
  rw [hdata] at hy
  exact sortDocs_missing_grouped f cur.data y hy

/-- Witness for C9: three concrete documents with distinct numeric keys,
sorted ascending then descending, give the reverse of the ascending
order. -/
theorem C9_sort_semantics_witness :
    (((MockCursor.mk [[("x", Value.num 2)], [("x", Value.num 1)],
        [("x", Value.num 3)]]).sort "x" 1).sort "x" (-1)).data =
      ((((MockCursor.mk [[("x", Value.num 2)], [("x", Value.num 1)],
        [("x", Value.num 3)]]).sort "x" 1)).data).reverse :=
  C9_sort_semantics.2.2.2 "x" [("x", Value.num 2)] [("x", Value.num 1)]
    [("x", Value.num 3)] 2 1 3 rfl rfl rfl (by decide) (by decide)
    (by decide)
